import Mathlib

/-!
Shallow embedding of the epidemic agent-simulation engine of
`backend/simulation.py` and the router of `backend/pathfinding.py`.

Conventions of the embedding:
* Python's global `random` generator is modelled as a stream of rational
  draws `Rng` (a function from draw index to value, plus a cursor); each
  call of `random.random()`, `random.uniform`, `random.choice` consumes
  one draw, in source order (short-circuit evaluation respected).
* The mesa `RandomActivation` scheduler shuffles with its own generator
  (`model.random`), distinct from the global one; we model the shuffled
  activation order of a tick as an explicit argument `order` (a list of
  agent uids), and `schedule.steps` is incremented after all agents have
  stepped, as mesa does.
* Python lists are heap objects; `Person.path` and the values of
  `model.path_cache` alias the same objects.  We model the heap of list
  objects explicitly: `MState.store` is the heap, a `Person` holds an
  index `pathRef` into it, and the cache maps keys to heap indices.
* scipy's `KDTree.query_ball_point(x, r)` returns the points at Euclidean
  distance ≤ r from x (a closed ball; empty for negative r); we compare
  squared distances over ℚ.  The order in which the query reports indices
  is unspecified; the embedding enumerates them in snapshot order.
* networkit's `Dijkstra` / `SSSP.getPath(t)` returns the full node
  sequence of a min-weight path from the source to `t`, both endpoints
  included (`[source]` when `t = source`), and the empty sequence when
  `t` is unreachable.  We embed it as the min-weight element of the set
  of simple paths, which is extensionally the same function on the
  graphs the simulation builds (non-negative edge weights).
-/

/-- SEIRD health states, the values of `Person.state` in the source. -/
inductive HState where
  | S | E | I | R | D
deriving DecidableEq, Repr

/-- The global random stream: `f` gives the value of the n-th draw, `i`
is the cursor of the next draw to consume. -/
structure Rng where
  f : Nat → ℚ
  i : Nat

/-- Consume one draw (`random.random()`). -/
def Rng.next (g : Rng) : ℚ × Rng :=
  (g.f g.i, { g with i := g.i + 1 })

/-- `random.choice(lst)`: one draw, mapped to an index into the list. -/
def Rng.choice (g : Rng) (lst : List Nat) : Nat × Rng :=
  let (r, g') := g.next
  (lst.getD (Int.toNat ⌊r * lst.length⌋) 0, g')

/-- Python truthiness of an `Optional[int]`: `None` and `0` are falsy.
`x if x else home` on an optional node id. -/
def pyOrHome : Option Nat → Nat → Nat
  | none, home => home
  | some k, home => if k ≠ 0 then k else home

/-- A weighted undirected graph as networkit holds it: `n` nodes
`0, …, n-1` and a list of weighted edges. -/
structure Graph where
  n : Nat
  edges : List (Nat × Nat × ℚ)
deriving DecidableEq, Repr

/-- The weighted neighbors of `u` (both orientations of each edge). -/
def Graph.neighbors (g : Graph) (u : Nat) : List (Nat × ℚ) :=
  g.edges.foldr (fun e acc =>
    if e.1 = u then (e.2.1, e.2.2) :: acc
    else if e.2.1 = u then (e.1, e.2.2) :: acc
    else acc) []

/-- The weight of the edge `u - v`, if present. -/
def Graph.adjW (g : Graph) (u v : Nat) : Option ℚ :=
  ((g.neighbors u).find? (fun x => x.1 = v)).map (fun x => x.2)

/-- Every edge endpoint is a node id `< n`. -/
def Graph.WF (g : Graph) : Prop :=
  ∀ e ∈ g.edges, e.1 < g.n ∧ e.2.1 < g.n

instance (g : Graph) : Decidable g.WF := by
  unfold Graph.WF; infer_instance

/-- `Person`: the fields of the `Person` agent of the source.  `pathRef`
is the heap address of the Python list object `self.path`; `pos` is the
point `self.geometry`. -/
structure Person where
  uid : Nat
  state : HState
  age : ℚ
  home : Nat
  work : Option Nat
  school : Option Nat
  currentDestination : Nat
  pathRef : Nat
  latentTimer : Nat
  infectionTimer : Nat
  currentNode : Nat
  pos : ℚ × ℚ
deriving DecidableEq, Repr

/-- The model configuration: constructor parameters of
`DiseaseSpreadModel` together with the loaded geographic data (the
graph, node coordinates and the categorized POI lists). -/
structure Cfg where
  graph : Graph
  coords : Nat → ℚ × ℚ
  nodesIndex : List Nat
  workPois : List Nat
  educationPois : List Nat
  leisurePois : List Nat
  infectionProb : ℚ
  distanceThreshold : ℚ
  latentPeriod : Nat
  recoveryPeriod : Nat
  deathRate : ℚ

/-- An infection event `(transmitter uid, receiver uid, tick)`. -/
abbrev InfEvent := Nat × Nat × Nat

/-- The mutable model state: the scheduler's agent list (insertion
order), the tick counter `schedule.steps`, the event log, the heap of
Python list objects, and `path_cache` mapping a key to a heap address. -/
structure MState where
  agents : List Person
  steps : Nat
  infectionEvents : List InfEvent
  store : List (List Nat)
  pathCache : List ((Nat × Nat) × Nat)
deriving Repr

/-- `Person.step`, state-update phase (source lines 28–38). -/
def personStateStep (cfg : Cfg) (p : Person) (rng : Rng) : Person × Rng :=
  if p.state = HState.E then
    let lt := p.latentTimer + 1
    if cfg.latentPeriod ≤ lt then
      ({ p with state := HState.I, latentTimer := 0, infectionTimer := 0 }, rng)
    else ({ p with latentTimer := lt }, rng)
  else if p.state = HState.I then
    let it := p.infectionTimer + 1
    if cfg.recoveryPeriod ≤ it then
      let (r, rng') := rng.next
      ({ p with infectionTimer := it,
                state := if cfg.deathRate < r then HState.R else HState.D }, rng')
    else ({ p with infectionTimer := it }, rng)
  else (p, rng)

/-- `Person.update_destination` (source lines 53–80).  `steps` is the
scheduler's tick counter at call time.  Draws are consumed exactly where
the Python evaluates `random.random()` / `random.choice`, respecting
short-circuits and conditional expressions. -/
def update_destination (cfg : Cfg) (steps : Nat) (p : Person) (rng : Rng) :
    Person × Rng :=
  let day := steps / 24 % 7
  let hour := steps % 24
  let isWeekday := day < 5
  let routine : Person × Rng → Person × Rng := fun (p, rng) =>
    if isWeekday then
      if 5 ≤ p.age ∧ p.age < 18 ∧ 8 ≤ hour ∧ hour < 15 then
        ({ p with currentDestination := pyOrHome p.school p.home }, rng)
      else if 18 ≤ p.age ∧ p.age < 65 ∧ 8 ≤ hour ∧ hour < 17 then
        ({ p with currentDestination := pyOrHome p.work p.home }, rng)
      else if 65 ≤ p.age ∨ p.age < 5 then
        let (r, rng1) := rng.next
        if r < 1/2 then
          if cfg.leisurePois.isEmpty then
            ({ p with currentDestination := p.home }, rng1)
          else
            let (c, rng2) := rng1.choice cfg.leisurePois
            ({ p with currentDestination := c }, rng2)
        else ({ p with currentDestination := p.home }, rng1)
      else ({ p with currentDestination := p.home }, rng)
    else
      let (r, rng1) := rng.next
      if r < 3/10 then
        if cfg.leisurePois.isEmpty then
          ({ p with currentDestination := p.home }, rng1)
        else
          let (c, rng2) := rng1.choice cfg.leisurePois
          ({ p with currentDestination := c }, rng2)
      else ({ p with currentDestination := p.home }, rng1)
  if p.state = HState.I then
    let (r, rng1) := rng.next
    if r < 1/2 then ({ p with currentDestination := p.home }, rng1)
    else routine (p, rng1)
  else routine (p, rng)

/-- All simple paths from `u` to `t` avoiding `vis`, as node lists that
start at `u` and end at `t`; `fuel` bounds the number of further hops. -/
def pathsFrom (g : Graph) (t : Nat) : Nat → Nat → List Nat → List (List Nat)
  | 0, u, _ => if u = t then [[u]] else []
  | fuel + 1, u, vis =>
    if u = t then [[u]]
    else
      ((g.neighbors u).map Prod.fst).foldr
        (fun v acc =>
          if v ∈ u :: vis then acc
          else (pathsFrom g t fuel v (u :: vis)).map (u :: ·) ++ acc)
        []

/-- The weight of a node sequence: sum of the weights of consecutive
edges (an absent edge counts 0; validity is tracked separately). -/
def pathWeight (g : Graph) : List Nat → ℚ
  | a :: b :: rest => (g.adjW a b).getD 0 + pathWeight g (b :: rest)
  | _ => 0

/-- Consecutive elements are joined by edges of `g`. -/
def isChain (g : Graph) : List Nat → Bool
  | a :: b :: rest => (g.adjW a b).isSome && isChain g (b :: rest)
  | _ => true

/-- `p` is a simple path from `s` to `t` in `g`. -/
def IsSimplePath (g : Graph) (p : List Nat) (s t : Nat) : Prop :=
  p ≠ [] ∧ p.head? = some s ∧ p.getLast? = some t ∧ isChain g p = true ∧ p.Nodup

instance (g : Graph) (p : List Nat) (s t : Nat) :
    Decidable (IsSimplePath g p s t) := by
  unfold IsSimplePath; infer_instance

/-- Keep the min-weight element of a list of paths (ties: the earlier
element wins). -/
def pickMin (g : Graph) : List (List Nat) → Option (List Nat)
  | [] => none
  | p :: rest =>
    match pickMin g rest with
    | none => some p
    | some q => if pathWeight g p ≤ pathWeight g q then some p else some q

/-- networkit `Dijkstra(graph, start, end).run(); getPath(end)`: a
min-weight path from `s` to `t`, both endpoints included, `[]` when
unreachable. -/
def nkGetPath (g : Graph) (s t : Nat) : List Nat :=
  (pickMin g (pathsFrom g t g.n s [])).getD []

/-- `compute_path` of `backend/pathfinding.py`: validates both node ids
against `graph.numberOfNodes()`, then runs Dijkstra and returns
`getPath(end)` as a list. -/
def compute_path (g : Graph) (start : Nat) (endNode : Nat) : List Nat :=
  if ¬ (start < g.n) then []
  else if ¬ (endNode < g.n) then []
  else nkGetPath g start endNode

/-- Look up an agent by uid (`first match`, as a dict of unique ids). -/
def lookupAgent (agents : List Person) (u : Nat) : Option Person :=
  agents.find? (fun p => p.uid = u)

/-- Write back the agent with uid `u` (uids are unique in the schedule,
so mapping over the list is Python's in-place object mutation). -/
def updAgent (agents : List Person) (u : Nat) (f : Person → Person) :
    List Person :=
  agents.map (fun p => if p.uid = u then f p else p)

/-- `Person.step`, path-resolution phase (source lines 41–48): on an
empty path, pick a destination and resolve the path through
`path_cache` — aliasing the cached list object on a hit, storing the
freshly computed object on a miss. -/
def personPathResolve (cfg : Cfg) (steps : Nat) (p : Person)
    (store : List (List Nat)) (cache : List ((Nat × Nat) × Nat))
    (rng : Rng) :
    Person × List (List Nat) × List ((Nat × Nat) × Nat) × Rng :=
  if (store.getD p.pathRef []).isEmpty then
    let (p', rng') := update_destination cfg steps p rng
    let key := (p'.currentNode, p'.currentDestination)
    match cache.find? (fun e => e.1 = key) with
    | some e => ({ p' with pathRef := e.2 }, store, cache, rng')
    | none =>
      let newList := compute_path cfg.graph p'.currentNode p'.currentDestination
      ({ p' with pathRef := store.length }, store ++ [newList],
       (key, store.length) :: cache, rng')
  else (p, store, cache, rng)

/-- `Person.step`, movement phase (source lines 40–51): resolve the
path, then pop the front of the (shared) list object and move there. -/
def personMoveStep (cfg : Cfg) (steps : Nat) (p : Person)
    (store : List (List Nat)) (cache : List ((Nat × Nat) × Nat))
    (rng : Rng) :
    Person × List (List Nat) × List ((Nat × Nat) × Nat) × Rng :=
  let (p1, store1, cache1, rng1) := personPathResolve cfg steps p store cache rng
  match store1.getD p1.pathRef [] with
  | [] => (p1, store1, cache1, rng1)
  | h :: tl =>
    ({ p1 with currentNode := h, pos := cfg.coords h },
     store1.set p1.pathRef tl, cache1, rng1)

/-- The whole of `Person.step` for the agent of uid `u` within the model
state. -/
def personStep (cfg : Cfg) (st : MState) (u : Nat) (rng : Rng) :
    MState × Rng :=
  match lookupAgent st.agents u with
  | none => (st, rng)
  | some p =>
    let (p1, rng1) := personStateStep cfg p rng
    let (p2, store2, cache2, rng2) :=
      personMoveStep cfg st.steps p1 st.store st.pathCache rng1
    ({ st with agents := updAgent st.agents u (fun _ => p2),
               store := store2, pathCache := cache2 }, rng2)

/-- One iteration of the scheduler loop: step the agent of uid `u`. -/
def stepOne (cfg : Cfg) (acc : MState × Rng) (u : Nat) : MState × Rng :=
  personStep cfg acc.1 u acc.2

/-- The per-agent loop of mesa `RandomActivation.step()`: step every
agent in the shuffled activation order. -/
def stepAgents (cfg : Cfg) (order : List Nat) (acc : MState × Rng) :
    MState × Rng :=
  order.foldl (stepOne cfg) acc

/-- mesa `RandomActivation.step()`: step every agent in the shuffled
`order` (a permutation of the scheduled uids, drawn from the scheduler's
own generator), then increment `schedule.steps`. -/
def scheduleStep (cfg : Cfg) (order : List Nat) (st : MState) (rng : Rng) :
    MState × Rng :=
  let (st1, rng1) := stepAgents cfg order (st, rng)
  ({ st1 with steps := st1.steps + 1 }, rng1)

/-- Squared Euclidean distance over ℚ. -/
def dist2 (a b : ℚ × ℚ) : ℚ :=
  (a.1 - b.1) * (a.1 - b.1) + (a.2 - b.2) * (a.2 - b.2)

/-- Membership in `KDTree.query_ball_point(center, r)`: the closed ball
(empty for negative radius). -/
def withinBall (center pt : ℚ × ℚ) (r : ℚ) : Bool :=
  if r < 0 then false else dist2 center pt ≤ r * r

/-- Set a susceptible agent to Exposed (source lines 145–146). -/
def toExposed (p : Person) : Person :=
  { p with state := HState.E, latentTimer := 0 }

/-- The inner loop body of `check_infections`: for one infected agent
(uid `iu` at snapshot position `ipos`) and one susceptible snapshot
entry, draw if within the ball; on a passing draw mutate the receiver
and append an event at tick `steps`. -/
def infectBody (cfg : Cfg) (steps : Nat) (iu : Nat) (ipos : ℚ × ℚ)
    (acc : List Person × List InfEvent × Rng) (s : Nat × ℚ × ℚ) :
    List Person × List InfEvent × Rng :=
  if withinBall ipos (s.2.1, s.2.2) cfg.distanceThreshold then
    let (r, rng') := acc.2.2.next
    if r < cfg.infectionProb then
      (updAgent acc.1 s.1 toExposed,
       acc.2.1 ++ [(iu, s.1, steps)], rng')
    else (acc.1, acc.2.1, rng')
  else acc

/-- The ball query and draw loop of one infected agent `inf` over the
susceptible snapshot (one iteration of the outer loop of
`check_infections`). -/
def infLoop (cfg : Cfg) (steps : Nat) (susSnap : List (Nat × ℚ × ℚ))
    (acc : List Person × List InfEvent × Rng) (inf : Person) :
    List Person × List InfEvent × Rng :=
  susSnap.foldl (infectBody cfg steps inf.uid inf.pos) acc

/-- `DiseaseSpreadModel.check_infections` (source lines 132–147): filter
the infected and susceptible agents, snapshot the susceptible positions,
and for every infected agent run one ball query over the snapshot; the
receiver's state is mutated through the shared agent objects, the event
log grows by one entry per passing draw. -/
def check_infections (cfg : Cfg) (st : MState) (rng : Rng) : MState × Rng :=
  let infected := st.agents.filter (fun a => a.state = HState.I)
  let susceptible := st.agents.filter (fun a => a.state = HState.S)
  if infected.isEmpty ∨ susceptible.isEmpty then (st, rng)
  else
    let susSnap := susceptible.map (fun a => (a.uid, a.pos))
    let (agents', events', rng') := infected.foldl
      (infLoop cfg st.steps susSnap) (st.agents, st.infectionEvents, rng)
    ({ st with agents := agents', infectionEvents := events' }, rng')

/-- The deceased-removal pass of `DiseaseSpreadModel.step` (source lines
127–130). -/
def removeDeceased (st : MState) : MState :=
  { st with agents := st.agents.filter (fun a => ¬ a.state = HState.D) }

/-- `DiseaseSpreadModel.step` (source lines 123–130): scheduler step
(with this tick's shuffled activation `order`), infection check, removal
of the deceased. -/
def modelStep (cfg : Cfg) (order : List Nat) (st : MState) (rng : Rng) :
    MState × Rng :=
  let (st1, rng1) := scheduleStep cfg order st rng
  let (st2, rng2) := check_infections cfg st1 rng1
  (removeDeceased st2, rng2)

/-- The dictionary returned by `DiseaseSpreadModel.get_state` (source
lines 149–170). -/
structure Snapshot where
  features : List (Nat × (ℚ × ℚ) × HState)
  countS : Nat
  countE : Nat
  countI : Nat
  countR : Nat
  countD : Nat
  step : Nat
deriving DecidableEq, Repr

/-- `DiseaseSpreadModel.get_state`: one feature per non-Deceased agent,
per-state counts over the scheduled agents, and the tick counter. -/
def get_state (st : MState) : Snapshot :=
  { features := (st.agents.filter (fun a => ¬ a.state = HState.D)).map
      (fun a => (a.uid, a.pos, a.state))
    countS := (st.agents.filter (fun a => a.state = HState.S)).length
    countE := (st.agents.filter (fun a => a.state = HState.E)).length
    countI := (st.agents.filter (fun a => a.state = HState.I)).length
    countR := (st.agents.filter (fun a => a.state = HState.R)).length
    countD := (st.agents.filter (fun a => a.state = HState.D)).length
    step := st.steps }

/-- Create agent number `i` of `n` (source lines 104–120): random home,
random age, category-dependent school/work, state forced to Infected
when `i < num_agents * 0.01` (an exact rational comparison; the float
product rounds to the same side for every feasible population size).
The agent's heap cell for `self.path` is the fresh empty list at address
`i`. -/
def mkAgent (cfg : Cfg) (i n : Nat) (rng : Rng) : Person × Rng :=
  let (home, rng1) := rng.choice cfg.nodesIndex
  let (r, rng2) := rng1.next
  let age : ℚ := 80 * r
  let (school, work, rng3) :
      Option Nat × Option Nat × Rng :=
    if 5 ≤ age ∧ age < 18 then
      if cfg.educationPois.isEmpty then (some home, none, rng2)
      else
        let (s, rng') := rng2.choice cfg.educationPois
        (some s, none, rng')
    else if 18 ≤ age ∧ age < 65 then
      if cfg.workPois.isEmpty then (none, some home, rng2)
      else
        let (w, rng') := rng2.choice cfg.workPois
        (none, some w, rng')
    else (none, none, rng2)
  ({ uid := i
     state := if (i : ℚ) < n / 100 then HState.I else HState.S
     age := age
     home := home
     work := work
     school := school
     currentDestination := home
     pathRef := i
     latentTimer := 0
     infectionTimer := 0
     currentNode := home
     pos := cfg.coords home }, rng3)

/-- One iteration of the agent-creation loop: append agent `i`. -/
def initStep (cfg : Cfg) (n : Nat) (acc : List Person × Rng) (i : Nat) :
    List Person × Rng :=
  let (p, rng') := mkAgent cfg i n acc.2
  (acc.1 ++ [p], rng')

/-- The agent-creation loop of `DiseaseSpreadModel.__init__`: the
initial model state with `n` agents, empty event log and path cache, and
one empty heap cell per agent. -/
def initModel (cfg : Cfg) (n : Nat) (rng : Rng) : MState × Rng :=
  let (agents, rng') := (List.range n).foldl (initStep cfg n) ([], rng)
  ({ agents := agents
     steps := 0
     infectionEvents := []
     store := List.replicate n []
     pathCache := [] }, rng')

/-- The transition edges of the SEIRD state machine (reflexivity for "no
transition"). -/
def seirdEdgeOk (a b : HState) : Prop :=
  a = b ∨ (a = HState.S ∧ b = HState.E) ∨ (a = HState.E ∧ b = HState.I) ∨
    (a = HState.I ∧ b = HState.R) ∨ (a = HState.I ∧ b = HState.D)

instance (a b : HState) : Decidable (seirdEdgeOk a b) := by
  unfold seirdEdgeOk; infer_instance

/-- Projection of an agent onto the fields fixed at creation by the
seeding rule: uid, health state and the two timers. -/
def agentKey (p : Person) : Nat × HState × Nat × Nat :=
  (p.uid, p.state, p.latentTimer, p.infectionTimer)

/-! Concrete test fixtures used by the counterexample and witness
theorems below: a 6-node graph with the single road `0 – 5`, a 3-node
line graph `0 – 1 – 2`, and a handful of agents at node 0. -/

/-- A graph with nodes `0..5` and the single edge `0 – 5`. -/
def gStar : Graph := ⟨6, [(0, 5, 1)]⟩

/-- The line graph `0 – 1 – 2` with unit weights. -/
def gLine : Graph := ⟨3, [(0, 1, 1), (1, 2, 1)]⟩

/-- A two-node graph with the single edge `0 – 1`. -/
def gTwo : Graph := ⟨2, [(0, 1, 1)]⟩

/-- Base test configuration: certain infection inside radius 0, slow
disease (latent 10, recovery 100, no deaths), leisure POI at node 5. -/
def exCfg : Cfg :=
  { graph := gStar
    coords := fun n => ((n : ℚ), 0)
    nodesIndex := [0]
    workPois := []
    educationPois := []
    leisurePois := [5]
    infectionProb := 1
    distanceThreshold := 0
    latentPeriod := 10
    recoveryPeriod := 100
    deathRate := 0 }

/-- An Infected 30-year-old at home node 0. -/
def exPersonI : Person :=
  { uid := 0, state := HState.I, age := 30, home := 0, work := none,
    school := none, currentDestination := 0, pathRef := 0, latentTimer := 0,
    infectionTimer := 0, currentNode := 0, pos := (0, 0) }

/-- A Susceptible 30-year-old at home node 0. -/
def exPersonS : Person := { exPersonI with uid := 1, state := HState.S, pathRef := 1 }

/-- A Susceptible 70-year-old (retiree routine) at home node 0. -/
def exPersonR : Person := { exPersonS with age := 70 }

/-- Initial state with the Infected and the Susceptible agent. -/
def exStateIS : MState :=
  { agents := [exPersonI, exPersonS], steps := 0, infectionEvents := [],
    store := [[], []], pathCache := [] }

/-- A constant draw stream: every draw is 0.6. -/
def exRng6 : Rng := ⟨fun _ => 6/10, 0⟩

/-- An all-zero draw stream. -/
def exRng0 : Rng := ⟨fun _ => 0, 0⟩

/-- The draw stream 0.6, 0, 0.2, 0.9, 0.9, … of the reproducibility
counterexample. -/
def exRngMix : Rng :=
  ⟨fun k => if k = 0 then 6/10 else if k = 1 then 0 else if k = 2 then 2/10 else 9/10, 0⟩

/-- Configuration of the reproducibility run: infection probability 1/2
within radius 1 on the star graph. -/
def exCfgRepro : Cfg := { exCfg with infectionProb := 1/2, distanceThreshold := 1 }

/-- State of the reproducibility run: the Infected 30-year-old and the
Susceptible retiree, both at node 0. -/
def exStateRepro : MState := { exStateIS with agents := [exPersonI, exPersonR] }

/-- Configuration of the cache-corruption run: the line graph, commuting
agent. -/
def exCfgLine : Cfg := { exCfg with graph := gLine }

/-- A Susceptible commuter whose workplace is node 2. -/
def exPersonW : Person := { exPersonI with state := HState.S, work := some 2 }

/-- State of the cache-corruption run at a weekday working hour
(`steps = 10`, so hour 10 of day 0). -/
def exStateW : MState :=
  { agents := [exPersonW], steps := 10, infectionEvents := [], store := [[]],
    pathCache := [] }

/-- Configuration of the death run: recovery check after 1 tick, certain
death. -/
def exCfgDeath : Cfg := { exCfg with recoveryPeriod := 1, deathRate := 1 }

/-- State with only the Infected agent. -/
def exStateI : MState := { exStateIS with agents := [exPersonI], store := [[]] }

/-- Relation between an agent list before and after an infection check:
every agent is either untouched or was Susceptible and is now Exposed. -/
def ExposedRel (ag0 ag : List Person) : Prop :=
  ∀ v, lookupAgent ag v = lookupAgent ag0 v ∨
    (∃ q, lookupAgent ag0 v = some q ∧ q.state = HState.S ∧
      lookupAgent ag v = some (toExposed q))

/-! ## Claim theorems -/

/-- C7 counterexample: with `distance_threshold = 0` a single `step()`
does produce a new infection.  Agents 0 (Infected) and 1 (Susceptible)
both sit at node 0, so their coordinates coincide; `query_ball_point`
with radius 0 is a closed ball and reports the coincident point, the
draw 0.6 passes against `infection_prob = 1`, the Susceptible agent
ends the tick Exposed and one Infection Event is appended — the claim
"no call of step() ever produces a new infection" is false on this
configuration. -/
theorem c7_zero_threshold_counterexample :
    ((modelStep exCfg [0, 1] exStateIS exRng6).1.infectionEvents,
      (modelStep exCfg [0, 1] exStateIS exRng6).1.agents.map
        (fun p => (p.uid, p.state)),
      exCfg.distanceThreshold) =
    ([(0, 1, 1)], [(0, HState.I), (1, HState.E)], 0) := by
  norm_num +decide [modelStep, scheduleStep, stepAgents, stepOne, personStep,
    personStateStep, personMoveStep, personPathResolve, update_destination, check_infections,
    infLoop, infectBody, removeDeceased, lookupAgent, updAgent, compute_path, nkGetPath,
    pathsFrom, pickMin, pathWeight, Graph.neighbors, Graph.adjW, Rng.next,
    Rng.choice, withinBall, dist2, toExposed, pyOrHome, exCfg, gStar,
    exPersonI, exPersonS, exStateIS, exRng6]

/-- C6 (code bug): reproducibility fails.  Both runs use the same
configuration `exCfgRepro` and the same global draw stream `exRngMix`
("fixed seed"), and differ only in the activation order produced by the
mesa scheduler's own, separately seeded generator — a permutation of the
same two uids.  Because destination draws and infection draws all come
from the single global stream, the shuffled order shifts which draw each
agent consumes, and the two runs log different Infection Event
sequences: the draws are not sourced from a single seedable generator,
and fixed-seed runs are not reproducible. -/
theorem c6_reproducibility_bug :
    ((modelStep exCfgRepro [0, 1] exStateRepro exRngMix).1.infectionEvents,
      (modelStep exCfgRepro [1, 0] exStateRepro exRngMix).1.infectionEvents,
      decide (([1, 0] : List Nat).Perm [0, 1])) =
    ([], [(0, 1, 1)], true) := by
  norm_num +decide [modelStep, scheduleStep, stepAgents, stepOne, personStep,
    personStateStep, personMoveStep, personPathResolve, update_destination, check_infections,
    infLoop, infectBody, removeDeceased, lookupAgent, updAgent, compute_path, nkGetPath,
    pathsFrom, pickMin, pathWeight, Graph.neighbors, Graph.adjW, Rng.next,
    Rng.choice, withinBall, dist2, toExposed, pyOrHome, exCfgRepro, exCfg,
    gStar, exPersonI, exPersonS, exPersonR, exStateRepro, exStateIS, exRngMix]

/-- C1 (code bug): the Path Cache stores the very list object it hands
to the agent, not a copy.  One `step()` of the commuting agent computes
the shortest path `[0, 1, 2]` for the key `(0, 2)`, stores it, then pops
its front hop; afterwards the cache's stored sequence for `(0, 2)` is
the mutated `[1, 2]`, no longer the Router's freshly computed shortest
path `[0, 1, 2]`.  The cached value is not left pristine and a later hit
returns a partially consumed path. -/
theorem c1_path_cache_aliasing_bug :
    ((modelStep exCfgLine [0] exStateW exRng6).1.pathCache,
      (modelStep exCfgLine [0] exStateW exRng6).1.store.getD 1 [],
      compute_path exCfgLine.graph 0 2) =
    ([((0, 2), 1)], [1, 2], [0, 1, 2]) := by
  norm_num +decide [modelStep, scheduleStep, stepAgents, stepOne, personStep,
    personStateStep, personMoveStep, personPathResolve, update_destination, check_infections,
    infLoop, infectBody, removeDeceased, lookupAgent, updAgent, compute_path, nkGetPath,
    pathsFrom, pickMin, pathWeight, Graph.neighbors, Graph.adjW, Rng.next,
    Rng.choice, withinBall, dist2, toExposed, pyOrHome, exCfgLine, exCfg,
    gLine, exPersonI, exPersonW, exStateW, exRng6]

/-- C4 counterexample: one agent transitions to Deceased during the
`step()` (its state is `D` right after the scheduler phase), the removal
pass then drops it from the schedule, and the following `get_state`
reports a `D` count of 0, not the cumulative death count 1. -/
theorem c4_deceased_count_counterexample :
    (((scheduleStep exCfgDeath [0] exStateI exRng0).1.agents.map Person.state),
      (get_state (modelStep exCfgDeath [0] exStateI exRng0).1).countD,
      (modelStep exCfgDeath [0] exStateI exRng0).1.agents) =
    ([HState.D], 0, []) := by
  norm_num +decide [modelStep, scheduleStep, stepAgents, stepOne, personStep,
    personStateStep, personMoveStep, personPathResolve, update_destination, check_infections,
    infLoop, infectBody, removeDeceased, lookupAgent, updAgent, compute_path, nkGetPath,
    pathsFrom, pickMin, pathWeight, Graph.neighbors, Graph.adjW, Rng.next,
    Rng.choice, withinBall, dist2, toExposed, pyOrHome, get_state, exCfgDeath,
    exCfg, gStar, exPersonI, exStateI, exStateIS, exRng0]

/-- C2 counterexample: on the two-node graph with the single edge
`0 – 1` and valid endpoints, `compute_path` returns `[0, 1]` — the full
path including the start node, whose first element is `start` itself and
not the next hop — and for `start == end` it returns the singleton
`[0]`, not an empty sequence.  The claim's "includes end but excludes
start" and "when start == end it returns an empty sequence" are both
false. -/
theorem c2_router_counterexample :
    (compute_path gTwo 0 1, compute_path gTwo 0 0, gTwo.n) =
      ([0, 1], [0], 2) ∧
    compute_path gTwo 0 1 ≠ [1] ∧ compute_path gTwo 0 0 ≠ [] := by
  have h : (compute_path gTwo 0 1, compute_path gTwo 0 0, gTwo.n) =
      ([0, 1], [0], 2) := by
    norm_num +decide [compute_path, nkGetPath, pathsFrom, pickMin, pathWeight,
      Graph.neighbors, Graph.adjW, gTwo]
  refine ⟨h, ?_, ?_⟩
  · rw [show compute_path gTwo 0 1 = [0, 1] from congrArg (fun x => x.1) h]
    simp
  · rw [show compute_path gTwo 0 0 = [0] from congrArg (fun x => x.2.1) h]
    simp

/-- C5 counterexample: with `num_agents = 1` the seeding condition
`i < num_agents * 0.01` holds for the first agent (`0 < 0.01`), so the
model starts with one Infected agent even though
`floor(num_agents * 0.01) = floor(0.01) = 0`; the code seeds the
ceiling, not the floor, of the 1% fraction. -/
theorem c5_seed_counterexample :
    ((initModel exCfg 1 exRng6).1.agents.map
        (fun p => (p.uid, p.state, p.latentTimer, p.infectionTimer)),
      ⌊(1 : ℚ) * (1 / 100)⌋) =
    ([(0, HState.I, 0, 0)], 0) := by
  norm_num +decide [initModel, initStep, mkAgent, Rng.next, Rng.choice, exCfg, exRng6,
    List.range_succ]

/-- The agent built by `mkAgent` has uid `i`, both timers 0, and is
Infected exactly when `i < num_agents * 0.01`, i.e. `100 * i < n`. -/
theorem mkAgent_key (cfg : Cfg) (i n : Nat) (rng : Rng) :
    agentKey (mkAgent cfg i n rng).1 =
      (i, if 100 * i < n then HState.I else HState.S, 0, 0) := by
  have hcast : ((i : ℚ) < (n : ℚ) / 100) ↔ (100 * i < n) := by
    rw [lt_div_iff₀ (by norm_num : (0 : ℚ) < 100),
      show (i : ℚ) * 100 = ((100 * i : ℕ) : ℚ) by push_cast; ring]
    exact Nat.cast_lt
  unfold mkAgent agentKey
  split <;> split <;> simp_all [Rng.choice, Rng.next, hcast]

/-- Shape of the agent-creation fold: uids, states and timers of the
created agents, in creation order. -/
theorem initFold_key (cfg : Cfg) (n : Nat) (is : List Nat)
    (acc : List Person × Rng) :
    ((is.foldl (initStep cfg n) acc).1).map agentKey =
      acc.1.map agentKey ++
        is.map (fun i => (i, if 100 * i < n then HState.I else HState.S, 0, 0)) := by
  induction is generalizing acc with
  | nil => simp
  | cons i is ih =>
    simp only [List.foldl_cons, List.map_cons]
    rw [ih]
    simp [initStep, mkAgent_key]

/-- Counting the indices `i < n` with `100 * i < n` gives the ceiling
`⌈n / 100⌉ = (n + 99) / 100`. -/
theorem seedCount (n : Nat) :
    (List.range n).countP (fun i => decide (100 * i < n)) = (n + 99) / 100 := by
  have h2 : (List.range n).countP (fun i => decide (100 * i < n)) =
      (List.range n).countP (fun i => decide (i < (n + 99) / 100)) := by
    apply List.countP_congr
    intro i _
    have : (100 * i < n) ↔ (i < (n + 99) / 100) := by omega
    simp [this]
  rw [h2]
  have h3 : ∀ m k : Nat, (List.range k).countP (fun i => decide (i < m)) = min m k := by
    intro m k
    induction k with
    | zero => simp
    | succ k ih =>
      rw [List.range_succ, List.countP_append, ih]
      simp only [List.countP_cons, List.countP_nil]
      by_cases h : k < m <;> simp [h] <;> omega
  rw [h3]
  omega

/-- C5 (amended): at construction with population size `n`, agent `i`
(in creation order) starts Infected with both timers 0 exactly when
`i < n * 0.01`, every other agent starts Susceptible — so exactly
`⌈n * 0.01⌉ = (n + 99) / 100` earliest-created agents are seeded, the
ceiling rather than the claimed floor of the 1% fraction. -/
theorem c5_seed_fraction (cfg : Cfg) (n : Nat) (rng : Rng) :
    ((initModel cfg n rng).1.agents.map agentKey =
      (List.range n).map
        (fun i => (i, if 100 * i < n then HState.I else HState.S, 0, 0))) ∧
    ((initModel cfg n rng).1.agents.filter
        (fun p => p.state = HState.I)).length = (n + 99) / 100 := by
  have h1 : (initModel cfg n rng).1.agents =
      ((List.range n).foldl (initStep cfg n) ([], rng)).1 := by
    unfold initModel
    rfl
  have hmap := initFold_key cfg n (List.range n) ([], rng)
  simp only [List.map_nil, List.nil_append] at hmap
  constructor
  · rw [h1, hmap]
  · rw [h1, ← List.countP_eq_length_filter]
    have hc : (((List.range n).foldl (initStep cfg n) ([], rng)).1).countP
        (fun p => decide (p.state = HState.I)) =
        ((((List.range n).foldl (initStep cfg n) ([], rng)).1).map agentKey).countP
        (fun k => decide (k.2.1 = HState.I)) := by
      rw [List.countP_map]
      rfl
    rw [hc, hmap, List.countP_map]
    have : ((fun k : Nat × HState × Nat × Nat => decide (k.2.1 = HState.I)) ∘
        (fun i => (i, if 100 * i < n then HState.I else HState.S, 0, 0))) =
        (fun i => decide (100 * i < n)) := by
      funext i
      by_cases h : 100 * i < n <;> simp [h]
    rw [this, seedCount]

/-- C4 (amended): the `D` entry of `get_state` counts the *scheduled*
agents whose state is Deceased; because `step()` removes every deceased
agent in its final phase, a `get_state` after any `step()` always
reports a `D` count of 0 — the count does not accumulate deaths. -/
theorem c4_active_deceased_count_zero (cfg : Cfg) (order : List Nat)
    (st : MState) (rng : Rng) :
    (get_state (modelStep cfg order st rng).1).countD = 0 := by
  unfold modelStep removeDeceased get_state
  simp [List.filter_filter]

/-- C9: on a weekday, an agent in the school age band during school
hours whose `school` field is node id 0 — or in the work age band during
work hours whose `work` field is node id 0 — is sent home: Python's
truthiness test `x if x else home` treats the integer 0 like `None`, so
node id 0 can never be selected as a school or work destination. -/
theorem c9_zero_poi_treated_as_unset (cfg : Cfg) (steps : Nat) (p : Person)
    (rng : Rng) (hday : steps / 24 % 7 < 5)
    (hcase :
      (p.state ≠ HState.I ∧ 5 ≤ p.age ∧ p.age < 18 ∧ 8 ≤ steps % 24 ∧
        steps % 24 < 15 ∧ p.school = some 0) ∨
      (p.state ≠ HState.I ∧ 18 ≤ p.age ∧ p.age < 65 ∧ 8 ≤ steps % 24 ∧
        steps % 24 < 17 ∧ p.work = some 0)) :
    (update_destination cfg steps p rng).1.currentDestination = p.home := by
  rcases hcase with ⟨hstate, h1, h2, h3, h4, h5⟩ | ⟨hstate, h1, h2, h3, h4, h5⟩
  · simp [update_destination, pyOrHome, hday, hstate, h1, h2, h3, h4, h5]
  · have h18 : ¬ p.age < 18 := by linarith
    simp [update_destination, pyOrHome, hday, hstate, h1, h2, h3, h4, h5, h18]

/-- Witness for C9: a 10-year-old Susceptible agent with `school = 0` at
hour 9 of day 0 is sent to its home node. -/
theorem c9_zero_poi_treated_as_unset_witness :
    (5 : ℚ) ≤ 10 ∧
    (update_destination exCfg 9 { exPersonS with age := 10, school := some 0 }
      exRng6).1.currentDestination =
      { exPersonS with age := 10, school := some 0 }.home := by
  refine ⟨by norm_num, c9_zero_poi_treated_as_unset exCfg 9 _ exRng6 (by norm_num) ?_⟩
  left
  refine ⟨?_, ?_, ?_, ?_, ?_, ?_⟩ <;> norm_num +decide [exPersonS, exPersonI]

/-- C3: within one `check_infections`, two infected agents that each
pass the probability draw against the same susceptible neighbor (whose
position was snapshotted before any mutation) append one Infection
Event each — two events naming the same receiver and tick — while the
receiver's mutation to Exposed is idempotent, so it ends the tick
Exposed exactly once. -/
theorem c3_duplicate_infection_events (cfg : Cfg) (st : MState) (rng : Rng)
    (i1 i2 s0 : Person) (hag : st.agents = [i1, i2, s0])
    (h1 : i1.state = HState.I) (h2 : i2.state = HState.I)
    (hs : s0.state = HState.S)
    (hu1 : i1.uid ≠ s0.uid) (hu2 : i2.uid ≠ s0.uid)
    (hb1 : withinBall i1.pos s0.pos cfg.distanceThreshold = true)
    (hb2 : withinBall i2.pos s0.pos cfg.distanceThreshold = true)
    (hd1 : rng.f rng.i < cfg.infectionProb)
    (hd2 : rng.f (rng.i + 1) < cfg.infectionProb) :
    (check_infections cfg st rng).1.infectionEvents =
      st.infectionEvents ++
        [(i1.uid, s0.uid, st.steps), (i2.uid, s0.uid, st.steps)] ∧
    (check_infections cfg st rng).1.agents =
      [i1, i2, { s0 with state := HState.E, latentTimer := 0 }] := by
  constructor <;>
    simp [check_infections, infLoop, infectBody, updAgent, toExposed, Rng.next,
      hag, h1, h2, hs, hb1, hb2, hd1, hd2, hu1, hu2]

/-- Witness for C3: two Infected agents (uids 0 and 2) and one
Susceptible (uid 1) at the same node; both draws pass, the log gains the
two events (0, 1, 5) and (2, 1, 5), and agent 1 ends Exposed. -/
theorem c3_duplicate_infection_events_witness :
    exPersonI.state = HState.I ∧
    (check_infections exCfgRepro
        ⟨[exPersonI, { exPersonI with uid := 2 }, exPersonS], 5, [], [], []⟩
        exRng0).1.infectionEvents = [(0, 1, 5), (2, 1, 5)] ∧
    (check_infections exCfgRepro
        ⟨[exPersonI, { exPersonI with uid := 2 }, exPersonS], 5, [], [], []⟩
        exRng0).1.agents.map (fun p => (p.uid, p.state)) =
      [(0, HState.I), (2, HState.I), (1, HState.E)] := by
  have h := c3_duplicate_infection_events exCfgRepro
      ⟨[exPersonI, { exPersonI with uid := 2 }, exPersonS], 5, [], [], []⟩
      exRng0 exPersonI { exPersonI with uid := 2 } exPersonS rfl rfl rfl rfl
      (by decide) (by decide)
      (by norm_num [withinBall, dist2, exPersonI, exPersonS, exCfgRepro, exCfg])
      (by norm_num [withinBall, dist2, exPersonI, exPersonS, exCfgRepro, exCfg])
      (by norm_num [exRng0, exCfgRepro, exCfg])
      (by norm_num [exRng0, exCfgRepro, exCfg])
  refine ⟨rfl, ?_, ?_⟩
  · rw [h.1]
    norm_num [exPersonI, exPersonS]
  · rw [h.2]
    norm_num +decide [exPersonI, exPersonS]

/-- Squared Euclidean distance vanishes exactly on coinciding points. -/
theorem dist2_eq_zero_iff (a b : ℚ × ℚ) : dist2 a b = 0 ↔ a = b := by
  unfold dist2
  constructor
  · intro h
    have h1 : (a.1 - b.1) * (a.1 - b.1) = 0 ∧ (a.2 - b.2) * (a.2 - b.2) = 0 := by
      constructor <;> nlinarith [mul_self_nonneg (a.1 - b.1), mul_self_nonneg (a.2 - b.2)]
    have e1 : a.1 = b.1 := by
      have := mul_self_eq_zero.mp h1.1
      linarith
    have e2 : a.2 = b.2 := by
      have := mul_self_eq_zero.mp h1.2
      linarith
    exact Prod.ext e1 e2
  · intro h
    subst h
    ring

/-- A radius-0 ball query misses every point distinct from the center. -/
theorem withinBall_zero_eq_false (a b : ℚ × ℚ) (h : a ≠ b) :
    withinBall a b 0 = false := by
  unfold withinBall
  rw [if_neg (lt_irrefl 0)]
  simp only [mul_zero, decide_eq_false_iff_not]
  intro hle
  have h0 : dist2 a b = 0 := le_antisymm (by simpa using hle)
    (add_nonneg (mul_self_nonneg _) (mul_self_nonneg _))
  exact h ((dist2_eq_zero_iff a b).mp h0)

/-- The inner loop of `check_infections` is the identity when every
snapshot entry is outside the ball. -/
theorem foldl_infectBody_skip (cfg : Cfg) (steps iu : Nat) (ipos : ℚ × ℚ)
    (l : List (Nat × ℚ × ℚ)) (acc : List Person × List InfEvent × Rng)
    (h : ∀ s ∈ l, withinBall ipos (s.2.1, s.2.2) cfg.distanceThreshold = false) :
    l.foldl (infectBody cfg steps iu ipos) acc = acc := by
  induction l generalizing acc with
  | nil => rfl
  | cons s l ih =>
    rw [List.foldl_cons]
    have hs := h s (List.mem_cons_self s l)
    rw [show infectBody cfg steps iu ipos acc s = acc by
      unfold infectBody; rw [hs]; simp]
    exact ih acc (fun x hx => h x (List.mem_cons_of_mem s hx))

/-- The outer loop of `check_infections` is the identity when every
infected agent's ball query over the snapshot is empty. -/
theorem foldl_infLoop_skip (cfg : Cfg) (steps : Nat)
    (susSnap : List (Nat × ℚ × ℚ)) (infs : List Person)
    (acc : List Person × List InfEvent × Rng)
    (h : ∀ inf ∈ infs, ∀ s ∈ susSnap,
      withinBall inf.pos (s.2.1, s.2.2) cfg.distanceThreshold = false) :
    infs.foldl (infLoop cfg steps susSnap) acc = acc := by
  induction infs generalizing acc with
  | nil => rfl
  | cons inf infs ih =>
    rw [List.foldl_cons]
    rw [show infLoop cfg steps susSnap acc inf = acc from
      foldl_infectBody_skip cfg steps inf.uid inf.pos susSnap acc
        (h inf (List.mem_cons_self inf infs))]
    exact ih acc (fun x hx => h x (List.mem_cons_of_mem inf hx))

/-- C7 (amended): with `distance_threshold = 0`, `check_infections` is a
no-op — no susceptible agent becomes Exposed and no Infection Event is
appended — provided every infected agent's position differs from every
susceptible agent's position.  (Without that proviso the claim is false:
agents at the same graph node have identical coordinates, the radius-0
closed-ball query reports them, and infections do occur — see the
counterexample.) -/
theorem c7_zero_threshold_distinct_positions (cfg : Cfg) (st : MState)
    (rng : Rng) (hthr : cfg.distanceThreshold = 0)
    (hpos : ∀ a ∈ st.agents, a.state = HState.I →
      ∀ b ∈ st.agents, b.state = HState.S → a.pos ≠ b.pos) :
    check_infections cfg st rng = (st, rng) := by
  simp only [check_infections]
  split
  · rfl
  · rw [foldl_infLoop_skip]
    intro inf hinf s hs
    rw [hthr]
    simp only [List.mem_map, List.mem_filter] at hinf hs
    obtain ⟨hinfmem, hinfI⟩ := hinf
    obtain ⟨b, ⟨hbmem, hbS⟩, hbeq⟩ := hs
    have hne : inf.pos ≠ b.pos :=
      hpos inf hinfmem (by simpa using hinfI) b hbmem (by simpa using hbS)
    rw [← hbeq]
    exact withinBall_zero_eq_false _ _ (by simpa using hne)

/-- Witness for C7 (amended): one Infected agent at (0, 0) and one
Susceptible at (1, 0) under radius 0 — the infection check leaves the
state untouched. -/
theorem c7_zero_threshold_distinct_positions_witness :
    check_infections exCfg
        ⟨[exPersonI, { exPersonS with pos := (1, 0) }], 0, [], [], []⟩ exRng6 =
      (⟨[exPersonI, { exPersonS with pos := (1, 0) }], 0, [], [], []⟩, exRng6) := by
  apply c7_zero_threshold_distinct_positions
  · rfl
  · intro a ha haI b hb hbS
    simp only [List.mem_cons, List.not_mem_nil, or_false] at ha hb
    rcases ha with rfl | rfl <;> rcases hb with rfl | rfl <;>
      simp_all [exPersonI, exPersonS, Prod.ext_iff] <;> norm_num

/-- Writing one heap cell leaves every other cell unchanged. -/
theorem getD_set_ne (l : List (List Nat)) (i j : Nat) (a d : List Nat)
    (h : i ≠ j) : (l.set i a).getD j d = l.getD j d := by
  induction l generalizing i j with
  | nil => simp
  | cons x l ih =>
    cases i with
    | zero =>
      cases j with
      | zero => exact absurd rfl h
      | succ j => simp [List.set, List.getD]
    | succ i =>
      cases j with
      | zero => simp [List.set, List.getD]
      | succ j =>
        simp only [List.set, List.getD_cons_succ]
        exact ih i j (fun e => h (by rw [e]))

/-- C10: an agent whose Exposed timer expires during tick T's per-agent
phase becomes Infected there, is picked up by the same tick's
`check_infections` filter (which runs after all agent steps), and can
transmit in that very tick: the event log gains an event naming it as
transmitter at tick T. -/
theorem c10_same_tick_transmission (cfg : Cfg) (st : MState) (rng : Rng)
    (pE pS : Person) (nA nB : Nat)
    (hag : st.agents = [pE, pS])
    (hE : pE.state = HState.E) (hready : cfg.latentPeriod ≤ pE.latentTimer + 1)
    (hS : pS.state = HState.S) (hu : pE.uid ≠ pS.uid)
    (hrefs : pE.pathRef ≠ pS.pathRef)
    (hpa : st.store.getD pE.pathRef [] = [nA])
    (hpb : st.store.getD pS.pathRef [] = [nB])
    (hball : withinBall (cfg.coords nA) (cfg.coords nB) cfg.distanceThreshold = true)
    (hdraw : rng.f rng.i < cfg.infectionProb) :
    ((scheduleStep cfg [pE.uid, pS.uid] st rng).1.agents.map
        (fun p => (p.uid, p.state)) = [(pE.uid, HState.I), (pS.uid, HState.S)]) ∧
    ((modelStep cfg [pE.uid, pS.uid] st rng).1.infectionEvents =
      st.infectionEvents ++ [(pE.uid, pS.uid, st.steps + 1)]) ∧
    ((modelStep cfg [pE.uid, pS.uid] st rng).1.agents.map
        (fun p => (p.uid, p.state)) = [(pE.uid, HState.I), (pS.uid, HState.E)]) := by
  have hpb2 : (st.store.set pE.pathRef []).getD pS.pathRef [] = [nB] := by
    rw [getD_set_ne _ _ _ _ _ hrefs]
    exact hpb
  have hpa' : st.store[pE.pathRef]?.getD [] = [nA] := by simpa using hpa
  have hpb' : st.store[pS.pathRef]?.getD [] = [nB] := by simpa using hpb
  have hpb2' : (st.store.set pE.pathRef [])[pS.pathRef]?.getD [] = [nB] := by
    simpa using hpb2
  refine ⟨?_, ?_, ?_⟩ <;>
    simp [modelStep, scheduleStep, stepAgents, stepOne, personStep,
      personStateStep, personMoveStep, personPathResolve, check_infections, infLoop, infectBody,
      removeDeceased, lookupAgent, updAgent, toExposed, Rng.next, hag, hE,
      hready, hS, hu, hu.symm, hrefs, hpa', hpb', hpb2', hball, hdraw]

/-- Witness for C10: an Exposed agent one tick from its latent-period
boundary turns Infected during the step and infects its neighbor in the
same tick, logging the event (0, 1, 1). -/
theorem c10_same_tick_transmission_witness :
    ((scheduleStep exCfgRepro [0, 1]
        ⟨[{ exPersonI with state := HState.E, latentTimer := 9 }, exPersonS],
          0, [], [[0], [0]], []⟩ exRng0).1.agents.map
        (fun p => (p.uid, p.state)) = [(0, HState.I), (1, HState.S)]) ∧
    ((modelStep exCfgRepro [0, 1]
        ⟨[{ exPersonI with state := HState.E, latentTimer := 9 }, exPersonS],
          0, [], [[0], [0]], []⟩ exRng0).1.infectionEvents = [(0, 1, 1)]) ∧
    ((modelStep exCfgRepro [0, 1]
        ⟨[{ exPersonI with state := HState.E, latentTimer := 9 }, exPersonS],
          0, [], [[0], [0]], []⟩ exRng0).1.agents.map
        (fun p => (p.uid, p.state)) = [(0, HState.I), (1, HState.E)]) := by
  have h := c10_same_tick_transmission exCfgRepro
      ⟨[{ exPersonI with state := HState.E, latentTimer := 9 }, exPersonS],
        0, [], [[0], [0]], []⟩ exRng0
      { exPersonI with state := HState.E, latentTimer := 9 } exPersonS 0 0
      rfl rfl (by norm_num [exCfgRepro, exCfg]) rfl (by decide) (by decide)
      (by decide) (by decide)
      (by norm_num [withinBall, dist2, exCfgRepro, exCfg])
      (by norm_num [exRng0, exCfgRepro, exCfg])
  refine ⟨?_, ?_, ?_⟩
  · have h1 := h.1
    simpa [exPersonI, exPersonS] using h1
  · have h2 := h.2.1
    simpa [exPersonI, exPersonS] using h2
  · have h3 := h.2.2
    simpa [exPersonI, exPersonS] using h3

theorem lookupAgent_uid (l : List Person) (v : Nat) (p : Person)
    (h : lookupAgent l v = some p) : p.uid = v := by
  have := List.find?_some h
  simpa using this

theorem lookupAgent_updAgent (l : List Person) (u : Nat) (f : Person → Person)
    (v : Nat) (huid : ∀ x : Person, x.uid = u → (f x).uid = x.uid) :
    lookupAgent (updAgent l u f) v =
      (lookupAgent l v).map (fun x => if x.uid = u then f x else x) := by
  unfold lookupAgent updAgent
  rw [List.find?_map]
  have hpred : ((fun p : Person => decide (p.uid = v)) ∘
      fun p => if p.uid = u then f p else p) =
      (fun p : Person => decide (p.uid = v)) := by
    funext x
    by_cases h : x.uid = u <;> simp [h, huid]
  rw [hpred]

theorem updAgent_map_uid (l : List Person) (u : Nat) (f : Person → Person)
    (huid : ∀ x : Person, x.uid = u → (f x).uid = x.uid) :
    (updAgent l u f).map Person.uid = l.map Person.uid := by
  unfold updAgent
  rw [List.map_map]
  have hpred : (Person.uid ∘ fun p => if p.uid = u then f p else p) =
      Person.uid := by
    funext x
    by_cases h : x.uid = u <;> simp [h, huid]
  rw [hpred]

theorem lookupAgent_of_mem_nodup (l : List Person) (b : Person)
    (hmem : b ∈ l) (hnodup : (l.map Person.uid).Nodup) :
    lookupAgent l b.uid = some b := by
  induction l with
  | nil => cases hmem
  | cons x l ih =>
    rcases List.mem_cons.mp hmem with rfl | hmem'
    · unfold lookupAgent
      rw [List.find?_cons_of_pos _ (by simp)]
    · have hx : x.uid ≠ b.uid := by
        intro he
        have : b.uid ∈ l.map Person.uid := List.mem_map_of_mem Person.uid hmem'
        rw [← he] at this
        exact (List.nodup_cons.mp (by simpa using hnodup)).1 this
      unfold lookupAgent
      rw [List.find?_cons_of_neg _ (by simpa using hx)]
      exact ih hmem' (List.nodup_cons.mp (by simpa using hnodup)).2

theorem personStateStep_edge (cfg : Cfg) (p : Person) (rng : Rng) :
    seirdEdgeOk p.state (personStateStep cfg p rng).1.state ∧
      (personStateStep cfg p rng).1.uid = p.uid := by
  constructor
  · cases hst : p.state with
    | S => simp [personStateStep, hst, seirdEdgeOk]
    | E =>
      by_cases hl : cfg.latentPeriod ≤ p.latentTimer + 1 <;>
        simp [personStateStep, hst, hl, seirdEdgeOk]
    | I =>
      by_cases hr : cfg.recoveryPeriod ≤ p.infectionTimer + 1
      · by_cases hd : cfg.deathRate < rng.f rng.i <;>
          simp [personStateStep, hst, hr, hd, Rng.next, seirdEdgeOk]
      · simp [personStateStep, hst, hr, seirdEdgeOk]
    | R => simp [personStateStep, hst, seirdEdgeOk]
    | D => simp [personStateStep, hst, seirdEdgeOk]
  · cases hst : p.state with
    | S => simp [personStateStep, hst]
    | E =>
      by_cases hl : cfg.latentPeriod ≤ p.latentTimer + 1 <;>
        simp [personStateStep, hst, hl]
    | I =>
      by_cases hr : cfg.recoveryPeriod ≤ p.infectionTimer + 1
      · by_cases hd : cfg.deathRate < rng.f rng.i <;>
          simp [personStateStep, hst, hr, hd, Rng.next]
      · simp [personStateStep, hst, hr]
    | R => simp [personStateStep, hst]
    | D => simp [personStateStep, hst]

theorem update_destination_keeps (cfg : Cfg) (steps : Nat) (p : Person)
    (rng : Rng) :
    (update_destination cfg steps p rng).1.state = p.state ∧
      (update_destination cfg steps p rng).1.uid = p.uid := by
  unfold update_destination
  dsimp only
  repeat' split
  all_goals simp

theorem personPathResolve_keeps (cfg : Cfg) (steps : Nat) (p : Person)
    (store : List (List Nat)) (cache : List ((Nat × Nat) × Nat)) (rng : Rng) :
    (personPathResolve cfg steps p store cache rng).1.state = p.state ∧
      (personPathResolve cfg steps p store cache rng).1.uid = p.uid := by
  have hud := update_destination_keeps cfg steps p rng
  unfold personPathResolve
  rcases hud' : update_destination cfg steps p rng with ⟨p', rng'⟩
  rw [hud'] at hud
  repeat' split
  all_goals simp_all
  all_goals constructor <;> (split <;> simp_all)

theorem personMoveStep_keeps (cfg : Cfg) (steps : Nat) (p : Person)
    (store : List (List Nat)) (cache : List ((Nat × Nat) × Nat)) (rng : Rng) :
    (personMoveStep cfg steps p store cache rng).1.state = p.state ∧
      (personMoveStep cfg steps p store cache rng).1.uid = p.uid := by
  have hpr := personPathResolve_keeps cfg steps p store cache rng
  unfold personMoveStep
  rcases hq : personPathResolve cfg steps p store cache rng with ⟨p1, s1, c1, r1⟩
  rw [hq] at hpr
  dsimp only
  cases h2 : s1.getD p1.pathRef [] <;> simp_all

theorem personStep_lookup_ne (cfg : Cfg) (st : MState) (u : Nat) (rng : Rng)
    (v : Nat) (hvu : v ≠ u) :
    lookupAgent (personStep cfg st u rng).1.agents v = lookupAgent st.agents v := by
  unfold personStep
  cases hl : lookupAgent st.agents u with
  | none => rfl
  | some p =>
    have hpu : p.uid = u := lookupAgent_uid _ _ _ hl
    rcases h1 : personStateStep cfg p rng with ⟨p1, rng1⟩
    have hk1 := personStateStep_edge cfg p rng
    rw [h1] at hk1
    rcases h2 : personMoveStep cfg st.steps p1 st.store st.pathCache rng1 with
      ⟨p2, s2, c2, r2⟩
    have hk2 := personMoveStep_keeps cfg st.steps p1 st.store st.pathCache rng1
    rw [h2] at hk2
    dsimp only
    rw [h1]
    dsimp only
    rw [h2]
    dsimp only
    rw [lookupAgent_updAgent st.agents u (fun _ => p2) v
      (fun x hx => by rw [hk2.2, hk1.2, hpu, hx])]
    cases hv : lookupAgent st.agents v with
    | none => rfl
    | some q =>
      have hqv : q.uid = v := lookupAgent_uid _ _ _ hv
      simp [hqv, hvu]

theorem personStep_lookup_self (cfg : Cfg) (st : MState) (u : Nat) (rng : Rng)
    (p : Person) (hl : lookupAgent st.agents u = some p) :
    ∃ p2, lookupAgent (personStep cfg st u rng).1.agents u = some p2 ∧
      seirdEdgeOk p.state p2.state ∧ p2.uid = p.uid := by
  have hpu : p.uid = u := lookupAgent_uid _ _ _ hl
  unfold personStep
  rw [hl]
  rcases h1 : personStateStep cfg p rng with ⟨p1, rng1⟩
  have hk1 := personStateStep_edge cfg p rng
  rw [h1] at hk1
  rcases h2 : personMoveStep cfg st.steps p1 st.store st.pathCache rng1 with
    ⟨p2, s2, c2, r2⟩
  have hk2 := personMoveStep_keeps cfg st.steps p1 st.store st.pathCache rng1
  rw [h2] at hk2
  refine ⟨p2, ?_, ?_, ?_⟩
  · dsimp only
    rw [h1]
    dsimp only
    rw [h2]
    dsimp only
    rw [lookupAgent_updAgent st.agents u (fun _ => p2) u
      (fun x hx => by rw [hk2.2, hk1.2, hpu, hx])]
    rw [hl]
    simp [hpu]
  · rw [hk2.1]
    exact hk1.1
  · rw [hk2.2, hk1.2]

theorem personStep_map_uid (cfg : Cfg) (st : MState) (u : Nat) (rng : Rng) :
    (personStep cfg st u rng).1.agents.map Person.uid =
      st.agents.map Person.uid := by
  unfold personStep
  cases hl : lookupAgent st.agents u with
  | none => rfl
  | some p =>
    have hpu : p.uid = u := lookupAgent_uid _ _ _ hl
    rcases h1 : personStateStep cfg p rng with ⟨p1, rng1⟩
    have hk1 := personStateStep_edge cfg p rng
    rw [h1] at hk1
    rcases h2 : personMoveStep cfg st.steps p1 st.store st.pathCache rng1 with
      ⟨p2, s2, c2, r2⟩
    have hk2 := personMoveStep_keeps cfg st.steps p1 st.store st.pathCache rng1
    rw [h2] at hk2
    dsimp only
    rw [h1]
    dsimp only
    rw [h2]
    dsimp only
    exact updAgent_map_uid st.agents u (fun _ => p2)
      (fun x hx => by rw [hk2.2, hk1.2, hpu, hx])

theorem stepAgents_map_uid (cfg : Cfg) (order : List Nat) (acc : MState × Rng) :
    (stepAgents cfg order acc).1.agents.map Person.uid =
      acc.1.agents.map Person.uid := by
  induction order generalizing acc with
  | nil => rfl
  | cons u order ih =>
    rw [show stepAgents cfg (u :: order) acc =
      stepAgents cfg order (stepOne cfg acc u) from rfl, ih]
    exact personStep_map_uid cfg acc.1 u acc.2

theorem stepAgents_lookup_not_mem (cfg : Cfg) (order : List Nat)
    (acc : MState × Rng) (v : Nat) (h : v ∉ order) :
    lookupAgent (stepAgents cfg order acc).1.agents v =
      lookupAgent acc.1.agents v := by
  induction order generalizing acc with
  | nil => rfl
  | cons u order ih =>
    rw [show stepAgents cfg (u :: order) acc =
      stepAgents cfg order (stepOne cfg acc u) from rfl]
    rw [ih _ (fun hm => h (List.mem_cons_of_mem u hm))]
    exact personStep_lookup_ne cfg acc.1 u acc.2 v
      (fun he => h (he ▸ List.mem_cons_self u order))

theorem stepAgents_edge (cfg : Cfg) (order : List Nat) (acc : MState × Rng)
    (v : Nat) (p : Person) (hord : order.Nodup)
    (hp : lookupAgent acc.1.agents v = some p) :
    ∃ p', lookupAgent (stepAgents cfg order acc).1.agents v = some p' ∧
      seirdEdgeOk p.state p'.state ∧ p'.uid = p.uid := by
  induction order generalizing acc p with
  | nil => exact ⟨p, hp, Or.inl rfl, rfl⟩
  | cons u order ih =>
    rw [show stepAgents cfg (u :: order) acc =
      stepAgents cfg order (stepOne cfg acc u) from rfl]
    by_cases hv : v = u
    · subst hv
      obtain ⟨p2, hp2, hedge, huid⟩ :=
        personStep_lookup_self cfg acc.1 v acc.2 p hp
      have hnin : v ∉ order := (List.nodup_cons.mp hord).1
      refine ⟨p2, ?_, hedge, huid⟩
      rw [stepAgents_lookup_not_mem cfg order _ v hnin]
      exact hp2
    · have h1 : lookupAgent (stepOne cfg acc u).1.agents v = some p := by
        rw [show (stepOne cfg acc u).1 = (personStep cfg acc.1 u acc.2).1 from rfl,
          personStep_lookup_ne cfg acc.1 u acc.2 v hv]
        exact hp
      exact ih (stepOne cfg acc u) p (List.nodup_cons.mp hord).2 h1

theorem exposedRel_refl (ag0 : List Person) : ExposedRel ag0 ag0 :=
  fun _ => Or.inl rfl

theorem exposedRel_upd (ag0 ag : List Person) (w : Nat)
    (hrel : ExposedRel ag0 ag)
    (hw : ∃ b, lookupAgent ag0 w = some b ∧ b.state = HState.S) :
    ExposedRel ag0 (updAgent ag w toExposed) := by
  intro v
  rw [lookupAgent_updAgent ag w toExposed v (fun x _ => rfl)]
  rcases hrel v with heq | ⟨q, hq0, hqS, hq⟩
  · rw [heq]
    cases hv : lookupAgent ag0 v with
    | none => exact Or.inl rfl
    | some q0 =>
      have hq0v : q0.uid = v := lookupAgent_uid _ _ _ hv
      by_cases hvw : v = w
      · subst hvw
        obtain ⟨b, hb, hbS⟩ := hw
        rw [hv] at hb
        injection hb with hb'
        rw [← hb'] at hbS
        exact Or.inr ⟨q0, rfl, hbS, by simp [hq0v]⟩
      · exact Or.inl (by simp [hq0v, hvw])
  · rw [hq]
    have hquid : (toExposed q).uid = v := by
      rw [show (toExposed q).uid = q.uid from rfl]
      exact lookupAgent_uid _ _ _ hq0
    by_cases hvw : v = w
    · exact Or.inr ⟨q, hq0, hqS, by simp [hquid, toExposed]⟩
    · exact Or.inr ⟨q, hq0, hqS, by simp [hquid, hvw]⟩

theorem exposedRel_infectBody (cfg : Cfg) (steps iu : Nat) (ipos : ℚ × ℚ)
    (ag0 : List Person) (s : Nat × ℚ × ℚ)
    (acc : List Person × List InfEvent × Rng)
    (hrel : ExposedRel ag0 acc.1)
    (hs : ∃ b, lookupAgent ag0 s.1 = some b ∧ b.state = HState.S) :
    ExposedRel ag0 (infectBody cfg steps iu ipos acc s).1 := by
  unfold infectBody
  repeat' split
  · exact exposedRel_upd ag0 acc.1 s.1 hrel hs
  · exact hrel
  · exact hrel

theorem exposedRel_susFold (cfg : Cfg) (steps iu : Nat) (ipos : ℚ × ℚ)
    (ag0 : List Person) (snap : List (Nat × ℚ × ℚ))
    (acc : List Person × List InfEvent × Rng)
    (hrel : ExposedRel ag0 acc.1)
    (hs : ∀ s ∈ snap, ∃ b, lookupAgent ag0 s.1 = some b ∧ b.state = HState.S) :
    ExposedRel ag0 (snap.foldl (infectBody cfg steps iu ipos) acc).1 := by
  induction snap generalizing acc with
  | nil => exact hrel
  | cons s snap ih =>
    rw [List.foldl_cons]
    exact ih _ (exposedRel_infectBody cfg steps iu ipos ag0 s acc hrel
        (hs s (List.mem_cons_self s snap)))
      (fun x hx => hs x (List.mem_cons_of_mem s hx))

theorem exposedRel_infFold (cfg : Cfg) (steps : Nat)
    (snap : List (Nat × ℚ × ℚ)) (infs : List Person) (ag0 : List Person)
    (acc : List Person × List InfEvent × Rng)
    (hrel : ExposedRel ag0 acc.1)
    (hs : ∀ s ∈ snap, ∃ b, lookupAgent ag0 s.1 = some b ∧ b.state = HState.S) :
    ExposedRel ag0 (infs.foldl (infLoop cfg steps snap) acc).1 := by
  induction infs generalizing acc with
  | nil => exact hrel
  | cons inf infs ih =>
    rw [List.foldl_cons]
    exact ih _ (exposedRel_susFold cfg steps inf.uid inf.pos ag0 snap acc hrel hs)

theorem check_infections_rel (cfg : Cfg) (st : MState) (rng : Rng)
    (hnodup : (st.agents.map Person.uid).Nodup) :
    ExposedRel st.agents (check_infections cfg st rng).1.agents := by
  simp only [check_infections]
  split
  · exact exposedRel_refl st.agents
  · apply exposedRel_infFold
    · exact exposedRel_refl st.agents
    · intro s hs
      simp only [List.mem_map] at hs
      obtain ⟨b, hbmem, hbeq⟩ := hs
      have hbS : b.state = HState.S := by
        have := List.mem_filter.mp hbmem
        simpa using this.2
      have hbmem' : b ∈ st.agents := List.mem_of_mem_filter hbmem
      refine ⟨b, ?_, hbS⟩
      rw [show s.1 = b.uid from by rw [← hbeq]]
      exact lookupAgent_of_mem_nodup st.agents b hbmem' hnodup

theorem infectBody_map_uid (cfg : Cfg) (steps iu : Nat) (ipos : ℚ × ℚ)
    (acc : List Person × List InfEvent × Rng) (s : Nat × ℚ × ℚ) :
    (infectBody cfg steps iu ipos acc s).1.map Person.uid =
      acc.1.map Person.uid := by
  unfold infectBody
  repeat' split
  · exact updAgent_map_uid acc.1 s.1 toExposed (fun x _ => rfl)
  · rfl
  · rfl

theorem susFold_map_uid (cfg : Cfg) (steps iu : Nat) (ipos : ℚ × ℚ)
    (snap : List (Nat × ℚ × ℚ)) (acc : List Person × List InfEvent × Rng) :
    (snap.foldl (infectBody cfg steps iu ipos) acc).1.map Person.uid =
      acc.1.map Person.uid := by
  induction snap generalizing acc with
  | nil => rfl
  | cons s snap ih =>
    rw [List.foldl_cons, ih]
    exact infectBody_map_uid cfg steps iu ipos acc s

theorem infFold_map_uid (cfg : Cfg) (steps : Nat)
    (snap : List (Nat × ℚ × ℚ)) (infs : List Person)
    (acc : List Person × List InfEvent × Rng) :
    (infs.foldl (infLoop cfg steps snap) acc).1.map Person.uid =
      acc.1.map Person.uid := by
  induction infs generalizing acc with
  | nil => rfl
  | cons inf infs ih =>
    rw [List.foldl_cons, ih]
    exact susFold_map_uid cfg steps inf.uid inf.pos snap acc

theorem check_map_uid (cfg : Cfg) (st : MState) (rng : Rng) :
    (check_infections cfg st rng).1.agents.map Person.uid =
      st.agents.map Person.uid := by
  simp only [check_infections]
  split
  · rfl
  · exact infFold_map_uid cfg st.steps _ _ _

theorem lookupAgent_filter (l : List Person) (pred : Person → Bool) (v : Nat)
    (p' : Person) (hnodup : (l.map Person.uid).Nodup)
    (h : lookupAgent (l.filter pred) v = some p') :
    lookupAgent l v = some p' := by
  have hmem : p' ∈ l.filter pred := List.mem_of_find?_eq_some h
  have huid : p'.uid = v := lookupAgent_uid _ _ _ h
  rw [← huid]
  exact lookupAgent_of_mem_nodup l p' (List.mem_of_mem_filter hmem) hnodup

/-- C8: over one `step()` of the model — scheduler order a shuffle
(duplicate-free list) of uids and agent uids unique, as mesa guarantees
— every agent's health state moves only along the SEIRD edges S→E, E→I,
I→R, I→D (or stays put); no other transition is observable between
ticks. -/
theorem c8_seird_transitions (cfg : Cfg) (order : List Nat) (st : MState)
    (rng : Rng) (hord : order.Nodup)
    (hnodup : (st.agents.map Person.uid).Nodup) (v : Nat) (p p' : Person)
    (hp : lookupAgent st.agents v = some p)
    (hp' : lookupAgent (modelStep cfg order st rng).1.agents v = some p') :
    seirdEdgeOk p.state p'.state := by
  obtain ⟨p1, hp1, hedge1, _⟩ := stepAgents_edge cfg order (st, rng) v p hord hp
  have hS1a : (scheduleStep cfg order st rng).1.agents =
      (stepAgents cfg order (st, rng)).1.agents := rfl
  have hnodup1 : ((scheduleStep cfg order st rng).1.agents.map Person.uid).Nodup := by
    rw [hS1a, stepAgents_map_uid]
    exact hnodup
  have hp1' : lookupAgent (scheduleStep cfg order st rng).1.agents v = some p1 := by
    rw [hS1a]
    exact hp1
  have hrel := check_infections_rel cfg (scheduleStep cfg order st rng).1
    (scheduleStep cfg order st rng).2 hnodup1
  have hnodup2 : (((check_infections cfg (scheduleStep cfg order st rng).1
      (scheduleStep cfg order st rng).2).1.agents.map Person.uid)).Nodup := by
    rw [check_map_uid]
    exact hnodup1
  have hms : (modelStep cfg order st rng).1.agents =
      ((check_infections cfg (scheduleStep cfg order st rng).1
        (scheduleStep cfg order st rng).2).1.agents.filter
          (fun a => ¬ a.state = HState.D)) := rfl
  rw [hms] at hp'
  have hp'2 := lookupAgent_filter _ _ v p' hnodup2 hp'
  rcases hrel v with heq | ⟨q, hq0, hqS, hq⟩
  · rw [heq, hp1'] at hp'2
    injection hp'2 with h
    rw [← h]
    exact hedge1
  · have hqp1 : q = p1 := by
      have := hq0.symm.trans hp1'
      injection this
    subst hqp1
    rw [hq] at hp'2
    injection hp'2 with h2
    have hpS : p.state = HState.S := by
      rcases hedge1 with h | h | h | h | h
      · rw [h, hqS]
      · exact h.1
      · exact absurd (h.2.symm.trans hqS) (by decide)
      · exact absurd (h.2.symm.trans hqS) (by decide)
      · exact absurd (h.2.symm.trans hqS) (by decide)
    rw [← h2]
    exact Or.inr (Or.inl ⟨hpS, rfl⟩)

/-- Witness for C8: in the concrete two-agent run, agent 0 steps from
Infected to Infected (a reflexive edge). -/
theorem c8_seird_transitions_witness :
    seirdEdgeOk exPersonI.state
      ({ exPersonI with infectionTimer := 1, pathRef := 2 } : Person).state := by
  apply c8_seird_transitions exCfg [0, 1] exStateIS exRng6 (by decide)
    (by decide) 0 exPersonI { exPersonI with infectionTimer := 1, pathRef := 2 }
    rfl
  norm_num +decide [modelStep, scheduleStep, stepAgents, stepOne, personStep,
    personStateStep, personMoveStep, personPathResolve, update_destination,
    check_infections, infLoop, infectBody, removeDeceased, lookupAgent,
    updAgent, compute_path, nkGetPath, pathsFrom, pickMin, pathWeight,
    Graph.neighbors, Graph.adjW, Rng.next, Rng.choice, withinBall, dist2,
    toExposed, pyOrHome, exCfg, gStar, exPersonI, exPersonS, exStateIS, exRng6]

/-- Membership in the neighbor-expansion fold of `pathsFrom`. -/
theorem mem_foldr_filter {α : Type} (h : Nat → List α) (bad : List Nat)
    (vs : List Nat) (p : α) :
    p ∈ vs.foldr (fun v acc => if v ∈ bad then acc else h v ++ acc) [] ↔
      ∃ v ∈ vs, v ∉ bad ∧ p ∈ h v := by
  induction vs with
  | nil => simp
  | cons v vs ih =>
    by_cases hv : v ∈ bad <;> simp [hv, ih]

/-- A listed neighbor is joined by an edge. -/
theorem adjW_isSome_of_mem_neighbors (g : Graph) (u v : Nat)
    (h : v ∈ (g.neighbors u).map Prod.fst) : (g.adjW u v).isSome := by
  simp only [List.mem_map] at h
  obtain ⟨x, hx, hxv⟩ := h
  have hfind : ((g.neighbors u).find? (fun x => x.1 = v)).isSome := by
    rw [List.find?_isSome]
    exact ⟨x, hx, by simp [hxv]⟩
  obtain ⟨y, hy⟩ := Option.isSome_iff_exists.mp hfind
  unfold Graph.adjW
  rw [hy]
  rfl

/-- Soundness of the path enumeration: everything returned is a simple
path from `u` to `t` avoiding `vis` (except possibly at its head). -/
theorem pathsFrom_sound (g : Graph) (t : Nat) :
    ∀ (fuel u : Nat) (vis : List Nat) (p : List Nat),
      p ∈ pathsFrom g t fuel u vis →
        p ≠ [] ∧ p.head? = some u ∧ p.getLast? = some t ∧ isChain g p = true ∧
          p.Nodup ∧ ∀ x ∈ p, x = u ∨ x ∉ vis := by
  intro fuel
  induction fuel with
  | zero =>
    intro u vis p hp
    simp only [pathsFrom] at hp
    split at hp
    · simp only [List.mem_singleton] at hp
      subst hp
      rename_i hut
      subst hut
      exact ⟨by simp, by simp, by simp, by simp [isChain], by simp,
        fun x hx => Or.inl (by simpa using hx)⟩
    · simp at hp
  | succ fuel ih =>
    intro u vis p hp
    simp only [pathsFrom] at hp
    split at hp
    · simp only [List.mem_singleton] at hp
      subst hp
      rename_i hut
      subst hut
      exact ⟨by simp, by simp, by simp, by simp [isChain], by simp,
        fun x hx => Or.inl (by simpa using hx)⟩
    · rw [mem_foldr_filter] at hp
      obtain ⟨v, hvmem, hvbad, hp⟩ := hp
      simp only [List.mem_map] at hp
      obtain ⟨p', hp', rfl⟩ := hp
      obtain ⟨hne, hhead, hlast, hchain, hnodup, hdisj⟩ := ih v (u :: vis) p' hp'
      have hvne : v ≠ u := fun he => hvbad (he ▸ List.mem_cons_self u vis)
      have hunotin : u ∉ p' := by
        intro hu
        rcases hdisj u hu with he | hnin
        · exact hvne he.symm
        · exact hnin (List.mem_cons_self u vis)
      refine ⟨by simp, by simp, ?_, ?_, ?_, ?_⟩
      · cases p' with
        | nil => exact absurd rfl hne
        | cons a l =>
          rw [List.getLast?_cons_cons]
          exact hlast
      · cases p' with
        | nil => exact absurd rfl hne
        | cons a l =>
          have ha : a = v := by simpa using hhead
          subst ha
          simp only [isChain, Bool.and_eq_true]
          exact ⟨adjW_isSome_of_mem_neighbors g u a
            (by simpa using hvmem), hchain⟩
      · exact List.nodup_cons.mpr ⟨hunotin, hnodup⟩
      · intro x hx
        rcases List.mem_cons.mp hx with rfl | hx'
        · exact Or.inl rfl
        · right
          rcases hdisj x hx' with rfl | hnin
          · intro hxv
            exact hvbad (List.mem_cons_of_mem u hxv)
          · intro hxv
            exact hnin (List.mem_cons_of_mem u hxv)

/-- An edge endpoint appears in the neighbor list. -/
theorem mem_neighbors_of_adjW_isSome (g : Graph) (u v : Nat)
    (h : (g.adjW u v).isSome) : v ∈ (g.neighbors u).map Prod.fst := by
  unfold Graph.adjW at h
  cases hf : (g.neighbors u).find? (fun x => x.1 = v) with
  | none => rw [hf] at h; simp at h
  | some x =>
    have hxv : x.1 = v := by simpa using List.find?_some hf
    have hxm : x ∈ g.neighbors u := List.mem_of_find?_eq_some hf
    rw [← hxv]
    exact List.mem_map_of_mem Prod.fst hxm

/-- Completeness of the path enumeration: every simple path from `u` to
`t` that avoids `vis` and fits in the fuel bound is enumerated. -/
theorem pathsFrom_complete (g : Graph) (t : Nat) :
    ∀ (fuel : Nat) (p : List Nat) (u : Nat) (vis : List Nat),
      p.head? = some u → p.getLast? = some t → isChain g p = true → p.Nodup →
      (∀ x ∈ p, x ∉ vis) → p.length ≤ fuel + 1 →
      p ∈ pathsFrom g t fuel u vis := by
  intro fuel
  induction fuel with
  | zero =>
    intro p u vis hhead hlast hchain hnodup hdisj hlen
    cases p with
    | nil => simp at hhead
    | cons a l =>
      cases l with
      | nil =>
        have ha : a = u := by simpa using hhead
        have hat : a = t := by simpa using hlast
        subst ha
        simp [pathsFrom, hat.symm]
      | cons b l' => simp at hlen
  | succ fuel ih =>
    intro p u vis hhead hlast hchain hnodup hdisj hlen
    cases p with
    | nil => simp at hhead
    | cons a l =>
      have ha : a = u := by simpa using hhead
      subst ha
      by_cases hat : a = t
      · have hl : l = [] := by
          cases l with
          | nil => rfl
          | cons b l' =>
            exfalso
            have hlast0 : (b :: l').getLast? = some a := by
              rw [← List.getLast?_cons_cons (a := a), hlast, hat]
            have hmem : a ∈ b :: l' := by
              obtain ⟨hne', heq⟩ :=
                List.mem_getLast?_eq_getLast (Option.mem_def.mpr hlast0)
              rw [heq]
              exact List.getLast_mem hne'
            exact (List.nodup_cons.mp hnodup).1 hmem
        subst hl
        simp [pathsFrom, hat]
      · cases l with
        | nil => exact absurd (by simpa using hlast) hat
        | cons b l' =>
          simp only [pathsFrom]
          rw [if_neg hat, mem_foldr_filter]
          simp only [isChain, Bool.and_eq_true] at hchain
          refine ⟨b, mem_neighbors_of_adjW_isSome g a b hchain.1, ?_, ?_⟩
          · intro hb
            rcases List.mem_cons.mp hb with he | hb'
            · exact (List.nodup_cons.mp hnodup).1 (he ▸ List.mem_cons_self b l')
            · exact hdisj b (List.mem_cons_of_mem a (List.mem_cons_self b l')) hb'
          · refine List.mem_map.mpr ⟨b :: l', ?_, rfl⟩
            apply ih
            · simp
            · rw [← List.getLast?_cons_cons (a := a)]
              exact hlast
            · exact hchain.2
            · exact (List.nodup_cons.mp hnodup).2
            · intro x hx
              intro hmem
              rcases List.mem_cons.mp hmem with he | hv
              · exact (List.nodup_cons.mp hnodup).1 (he ▸ hx)
              · exact hdisj x (List.mem_cons_of_mem a hx) hv
            · simpa using hlen

/-- A neighbor-list entry comes from some edge of the graph. -/
theorem mem_neighbors_aux (u : Nat) (es : List (Nat × Nat × ℚ)) (v : Nat) (w : ℚ)
    (h : (v, w) ∈ es.foldr (fun e acc =>
      if e.1 = u then (e.2.1, e.2.2) :: acc
      else if e.2.1 = u then (e.1, e.2.2) :: acc
      else acc) []) :
    ∃ e ∈ es, (e.1 = u ∧ e.2.1 = v) ∨ (e.1 = v ∧ e.2.1 = u) := by
  induction es with
  | nil => simp at h
  | cons e es ih =>
    simp only [List.foldr_cons] at h
    by_cases h1 : e.1 = u
    · rw [if_pos h1] at h
      rcases List.mem_cons.mp h with he | h'
      · have h21 : e.2.1 = v := by
          have := congrArg Prod.fst he
          simpa using this.symm
        exact ⟨e, List.mem_cons_self e es, Or.inl ⟨h1, h21⟩⟩
      · obtain ⟨e', he', hc⟩ := ih h'
        exact ⟨e', List.mem_cons_of_mem e he', hc⟩
    · rw [if_neg h1] at h
      by_cases h2 : e.2.1 = u
      · rw [if_pos h2] at h
        rcases List.mem_cons.mp h with he | h'
        · have hev : e.1 = v := by
            have := congrArg Prod.fst he
            simpa using this.symm
          exact ⟨e, List.mem_cons_self e es, Or.inr ⟨hev, h2⟩⟩
        · obtain ⟨e', he', hc⟩ := ih h'
          exact ⟨e', List.mem_cons_of_mem e he', hc⟩
      · rw [if_neg h2] at h
        obtain ⟨e', he', hc⟩ := ih h
        exact ⟨e', List.mem_cons_of_mem e he', hc⟩

/-- In a well-formed graph, the endpoints of a present edge are valid
node ids. -/
theorem adjW_nodes_lt (g : Graph) (hwf : g.WF) (u v : Nat)
    (h : (g.adjW u v).isSome) : u < g.n ∧ v < g.n := by
  unfold Graph.adjW at h
  cases hf : (g.neighbors u).find? (fun x => x.1 = v) with
  | none => rw [hf] at h; simp at h
  | some x =>
    have hxv : x.1 = v := by simpa using List.find?_some hf
    have hxm : x ∈ g.neighbors u := List.mem_of_find?_eq_some hf
    have hxm' : (v, x.2) ∈ g.neighbors u := by
      rw [← hxv]
      exact hxm
    obtain ⟨e, he, hc⟩ := mem_neighbors_aux u g.edges v x.2 hxm'
    obtain ⟨h1, h2⟩ := hwf e he
    rcases hc with ⟨ha, hb⟩ | ⟨ha, hb⟩
    · exact ⟨ha ▸ h1, hb ▸ h2⟩
    · exact ⟨hb ▸ h2, ha ▸ h1⟩

/-- Every node of a chain of length ≥ 2 is a valid node id. -/
theorem chain_nodes_lt (g : Graph) (hwf : g.WF) :
    ∀ p, isChain g p = true → 2 ≤ p.length → ∀ x ∈ p, x < g.n := by
  intro p
  induction p with
  | nil => simp
  | cons a l ih =>
    intro hchain hlen x hx
    cases l with
    | nil => simp at hlen
    | cons b l' =>
      simp only [isChain, Bool.and_eq_true] at hchain
      have hab := adjW_nodes_lt g hwf a b hchain.1
      rcases List.mem_cons.mp hx with rfl | hx'
      · exact hab.1
      · cases l' with
        | nil =>
          have hxb : x = b := by simpa using hx'
          rw [hxb]
          exact hab.2
        | cons c l'' =>
          exact ih hchain.2 (by simp) x hx'

/-- A simple path has at most `n` nodes. -/
theorem simplePath_length_le (g : Graph) (hwf : g.WF) (p : List Nat) (s t : Nat)
    (hs : s < g.n) (hsp : IsSimplePath g p s t) : p.length ≤ g.n := by
  obtain ⟨hne, hhead, hlast, hchain, hnodup⟩ := hsp
  cases p with
  | nil => exact absurd rfl hne
  | cons a l =>
    cases l with
    | nil =>
      simp only [List.length_cons, List.length_nil]
      omega
    | cons b l' =>
      have hsub : (a :: b :: l') ⊆ List.range g.n := fun x hx =>
        List.mem_range.mpr (chain_nodes_lt g hwf (a :: b :: l') hchain (by simp) x hx)
      have := List.Subperm.length_le (List.subperm_of_subset hnodup hsub)
      simpa using this

/-- `pickMin` returns an element of its input. -/
theorem pickMin_mem (g : Graph) :
    ∀ (l : List (List Nat)) (p : List Nat), pickMin g l = some p → p ∈ l := by
  intro l
  induction l with
  | nil => intro p h; simp [pickMin] at h
  | cons a rest ih =>
    intro p h
    simp only [pickMin] at h
    cases hrest : pickMin g rest with
    | none =>
      rw [hrest] at h
      dsimp only at h
      injection h with h
      exact h ▸ List.mem_cons_self a rest
    | some q' =>
      rw [hrest] at h
      dsimp only at h
      by_cases hle : pathWeight g a ≤ pathWeight g q'
      · rw [if_pos hle] at h
        injection h with h
        exact h ▸ List.mem_cons_self a rest
      · rw [if_neg hle] at h
        injection h with h
        exact List.mem_cons_of_mem a (ih p (h ▸ hrest))

/-- `pickMin` succeeds on a nonempty list. -/
theorem pickMin_isSome0 (g : Graph) (l : List (List Nat)) (h : l ≠ []) :
    (pickMin g l).isSome := by
  cases l with
  | nil => exact absurd rfl h
  | cons q rest =>
    simp only [pickMin]
    cases pickMin g rest with
    | none => rfl
    | some q' => simp [apply_ite]

/-- `pickMin` returns a minimum-weight element. -/
theorem pickMin_min (g : Graph) :
    ∀ (l : List (List Nat)) (p : List Nat), pickMin g l = some p →
      ∀ q ∈ l, pathWeight g p ≤ pathWeight g q := by
  intro l
  induction l with
  | nil => intro p h; simp [pickMin] at h
  | cons a rest ih =>
    intro p h r hr
    simp only [pickMin] at h
    cases hrest : pickMin g rest with
    | none =>
      rw [hrest] at h
      dsimp only at h
      injection h with h
      subst h
      rcases List.mem_cons.mp hr with rfl | hr'
      · exact le_refl _
      · exfalso
        have hne : rest ≠ [] := by
          intro he
          rw [he] at hr'
          simp at hr'
        have hsome := pickMin_isSome0 g rest hne
        rw [hrest] at hsome
        simp at hsome
    | some q' =>
      rw [hrest] at h
      dsimp only at h
      by_cases hle : pathWeight g a ≤ pathWeight g q'
      · rw [if_pos hle] at h
        injection h with h
        subst h
        rcases List.mem_cons.mp hr with rfl | hr'
        · exact le_refl _
        · exact le_trans hle (ih q' hrest r hr')
      · rw [if_neg hle] at h
        injection h with h
        subst h
        rcases List.mem_cons.mp hr with rfl | hr'
        · exact le_of_not_le hle
        · exact ih q' hrest r hr'

/-- The only simple path from a node to itself is the singleton. -/
theorem simplePath_self (g : Graph) (p : List Nat) (s : Nat)
    (hsp : IsSimplePath g p s s) : p = [s] := by
  obtain ⟨hne, hhead, hlast, _, hnodup⟩ := hsp
  cases p with
  | nil => exact absurd rfl hne
  | cons a l =>
    have ha : a = s := by simpa using hhead
    subst ha
    cases l with
    | nil => rfl
    | cons b l' =>
      exfalso
      have hlast0 : (b :: l').getLast? = some a := by
        rw [← List.getLast?_cons_cons (a := a)]
        exact hlast
      have hmem : a ∈ b :: l' := by
        obtain ⟨hne', heq⟩ :=
          List.mem_getLast?_eq_getLast (Option.mem_def.mpr hlast0)
        rw [heq]
        exact List.getLast_mem hne'
      exact (List.nodup_cons.mp hnodup).1 hmem

/-- C2 (amended): for valid node ids, `compute_path` returns either the
empty sequence (exactly when no path exists) or an exact shortest path
from `start` to `end` that includes BOTH endpoints: its first element is
`start` itself, not the next hop, and its last element is `end`; when
`start == end` it returns the singleton `[start]`, not an empty
sequence.  (networkit's `getPath` includes the source node; the original
claim's "excludes start" and "empty when start == end" are false — see
the counterexample.) -/
theorem c2_router_shortest_path (g : Graph) (hwf : g.WF) (s t : Nat)
    (hs : s < g.n) (ht : t < g.n) :
    ((∀ p, ¬ IsSimplePath g p s t) ∧ compute_path g s t = []) ∨
    (IsSimplePath g (compute_path g s t) s t ∧
      (compute_path g s t).head? = some s ∧
      (compute_path g s t).getLast? = some t ∧
      (∀ p, IsSimplePath g p s t →
        pathWeight g (compute_path g s t) ≤ pathWeight g p) ∧
      (s = t → compute_path g s t = [s])) := by
  have hcp : compute_path g s t = nkGetPath g s t := by
    simp [compute_path, hs, ht]
  by_cases hne : pathsFrom g t g.n s [] = []
  · left
    constructor
    · intro p hp
      have hlen : p.length ≤ g.n := simplePath_length_le g hwf p s t hs hp
      obtain ⟨hne', hhead', hlast', hchain', hnodup'⟩ := hp
      have hmem := pathsFrom_complete g t g.n p s [] hhead' hlast' hchain'
        hnodup' (by simp) (by omega)
      rw [hne] at hmem
      simp at hmem
    · rw [hcp]
      unfold nkGetPath
      rw [hne]
      rfl
  · right
    obtain ⟨p0, hp0⟩ := Option.isSome_iff_exists.mp (pickMin_isSome0 g _ hne)
    have hmem := pickMin_mem g _ p0 hp0
    obtain ⟨hne0, hhead, hlast, hchain, hnodup, _⟩ :=
      pathsFrom_sound g t g.n s [] p0 hmem
    have hcpv : compute_path g s t = p0 := by
      rw [hcp]
      unfold nkGetPath
      rw [hp0]
      rfl
    have hsp0 : IsSimplePath g p0 s t := ⟨hne0, hhead, hlast, hchain, hnodup⟩
    rw [hcpv]
    refine ⟨hsp0, hhead, hlast, ?_, ?_⟩
    · intro p hp
      have hlen : p.length ≤ g.n := simplePath_length_le g hwf p s t hs hp
      obtain ⟨hne', hhead', hlast', hchain', hnodup'⟩ := hp
      have hmem' := pathsFrom_complete g t g.n p s [] hhead' hlast' hchain'
        hnodup' (by simp) (by omega)
      exact pickMin_min g _ p0 hp0 p hmem'
    · intro hst
      subst hst
      exact simplePath_self g p0 s hsp0

/-- Witness for C2 (amended): on the two-node graph the router returns
the shortest path `[0, 1]`, endpoints included. -/
theorem c2_router_shortest_path_witness :
    gTwo.WF ∧ 0 < gTwo.n ∧ 1 < gTwo.n ∧
    (((∀ p, ¬ IsSimplePath gTwo p 0 1) ∧ compute_path gTwo 0 1 = []) ∨
     (IsSimplePath gTwo (compute_path gTwo 0 1) 0 1 ∧
       (compute_path gTwo 0 1).head? = some 0 ∧
       (compute_path gTwo 0 1).getLast? = some 1 ∧
       (∀ p, IsSimplePath gTwo p 0 1 →
         pathWeight gTwo (compute_path gTwo 0 1) ≤ pathWeight gTwo p) ∧
       ((0 : Nat) = 1 → compute_path gTwo 0 1 = [0]))) :=
  ⟨by decide, by decide, by decide,
    c2_router_shortest_path gTwo (by decide) 0 1 (by decide) (by decide)⟩
